import Mathlib

/-!
Verification of the easy-parallel fork-join primitive (src/lib.rs).

The library accumulates deferred computations (closures) in a builder
(`Parallel::new`, `Parallel::add`, `Parallel::each`) and consumes them with two
terminal operations: `finish(f)` spawns one worker thread per accumulated
closure (each worker sends its value over a dedicated one-shot channel), runs
`f` on the calling thread under `catch_unwind`, joins every worker in
submission order keeping only the last panic payload, drops a `NoPanic` guard,
re-raises a worker panic if any, otherwise drains every channel in submission
order and finally either returns `(results, r)` or re-raises the foreground's
captured panic.  `run()` pops the last closure, uses it as the foreground of
`finish`, and appends its value to the worker results.

Shallow embedding choices:
* A deferred computation is modelled by its outcome when invoked:
  `Except E T` (`.ok v` = returns `v`, `.error e` = panics with payload `e`).
  The builder itself is parametric in an opaque closure type `σ`, so builder
  operations cannot invoke user code at all.
* The executor is a pure function of the task outcomes; since result delivery
  and ordering are independent of the actual interleaving of worker threads
  (each channel is written once and read once, and joins are in submission
  order), the functional result is deterministic.
* The calling thread's visible actions are recorded in an event trace
  (channel creation, spawn, foreground invocation, join, guard drop, channel
  receive, re-raise, return), so temporal claims are statements about traces.
* A `recv().unwrap()` that would panic (empty channel) is modelled as `none`
  at the executor's result type; the safety claim shows it never happens.
-/

namespace EasyParallel

/-- True iff an outcome is an abnormal termination (panic). -/
def isError {E A : Type} : Except E A → Bool
  | .error _ => true
  | .ok _ => false

/-- Panic payload of an outcome, if it is one. -/
def errOf {E A : Type} : Except E A → Option E
  | .error e => some e
  | .ok _ => none

/-- Builder state (src/lib.rs lines 6-8): the accumulated closures, in
submission order.  The closure type `σ` is an opaque parameter: builder
operations can only move closures around, never invoke them. -/
structure Parallel (σ : Type) where
  closures : List σ
  deriving DecidableEq, Repr

/-- Model of `Parallel::new` (src/lib.rs lines 12-16). -/
def Parallel.new (σ : Type) : Parallel σ := ⟨[]⟩

/-- Model of `Parallel::add` (src/lib.rs lines 18-25): push the closure at the
end of the accumulated list, return the moved builder. -/
def Parallel.add {σ : Type} (p : Parallel σ) (f : σ) : Parallel σ :=
  ⟨p.closures ++ [f]⟩

/-- Model of `Parallel::each` (src/lib.rs lines 27-39): for every element `t`
of the iterator in order, push the closure `|| f(t)` (with `f` cloned; a clone
of a pure mapper is the mapper itself, so the pushed closure is modelled by
`f t`). -/
def Parallel.each {σ A : Type} (p : Parallel σ) (iter : List A) (f : A → σ) :
    Parallel σ :=
  ⟨iter.foldl (fun acc t => acc ++ [f t]) p.closures⟩

/-- Model of the `Debug` instance (src/lib.rs lines 108-114):
`debug_struct("Parallel").field("len", &len).finish()` renders
`Parallel { len: n }`.  Only the length of the closure list is consulted. -/
def Parallel.fmtDebug {σ : Type} (p : Parallel σ) : String :=
  "Parallel \x7b len: " ++ toString p.closures.length ++ " \x7d"

/-- Events observable on the calling thread during `finish` / `run`. -/
inductive Ev where
  | chan (i : Nat)   -- `mpsc::channel()` created for task i (line 64)
  | spawn (i : Nat)  -- `thread::spawn` of worker i (line 73)
  | runFg            -- foreground invoked under `catch_unwind` (line 80)
  | join (i : Nat)   -- `h.join()` of worker i (line 84)
  | guardDrop        -- `drop(guard)` (line 88)
  | raiseWorker      -- `resume_unwind` of the saved worker panic (line 92)
  | recv (i : Nat)   -- `receiver.recv()` for task i (line 97)
  | ret              -- normal return
  | raiseFg          -- `resume_unwind` of the foreground panic (line 103)
  deriving DecidableEq, Repr

/-- Trace of the spawn loop (src/lib.rs lines 63-75): iteration `i` creates a
channel for task `i` and spawns worker `i`, in submission order. -/
def chanSpawnEvents : Nat → List Ev
  | 0 => []
  | n + 1 => chanSpawnEvents n ++ [Ev.chan n, Ev.spawn n]

/-- Fold step of the join loop (src/lib.rs lines 84-86): an `Err` payload from
`join` overwrites `last_err`, an `Ok` leaves it unchanged. -/
def lastErrStep {E T : Type} (acc : Option E) (o : Except E T) : Option E :=
  match o with
  | .error e => some e
  | .ok _ => acc

/-- Value of `last_err` after the join loop (src/lib.rs lines 81-87): the
panic payload of the last joined worker that panicked, if any.  Join order is
submission order, so this is the failing task of highest submission index. -/
def lastErr {E T : Type} (outs : List (Except E T)) : Option E :=
  outs.foldl lastErrStep none

/-- Drain loop over the receivers (src/lib.rs lines 95-98), with `i` the index
of the first remaining channel.  `receiver.recv()` on a channel whose worker
sent nothing would make `.unwrap()` panic, modelled by result `none`;
otherwise the received values are accumulated in order. -/
def drainLoop {T : Type} : List (Option T) → Nat → List Ev × Option (List T)
  | [], _ => ([], some [])
  | c :: rest, i =>
    match c with
    | none => ([Ev.recv i], none)
    | some v =>
      let (evs, r) := drainLoop rest (i + 1)
      (Ev.recv i :: evs, r.map (fun l => v :: l))

/-- Result of `finish`: either the ordered worker values paired with the
foreground value, or a single propagated panic payload. -/
inductive FinishResult (T R E : Type) where
  | ok : List T → R → FinishResult T R E
  | panicked : E → FinishResult T R E
  deriving DecidableEq, Repr

/-- Model of `Parallel::finish` (src/lib.rs lines 54-105), instrumented with
the calling thread's event trace.  `tasks` are the accumulated closures
(modelled by their outcomes), `fg` the foreground computation's outcome.
Returns `none` only if a `recv().unwrap()` in the drain loop would panic. -/
def finishExec {T R E : Type} (tasks : List (Except E T)) (fg : Except E R) :
    List Ev × Option (FinishResult T R E) :=
  -- lines 63-75: per closure, create a channel and spawn a worker
  let pre := chanSpawnEvents tasks.length
  -- line 65: worker i runs `sender.send(f())`, so channel i holds a value
  -- iff task i returned normally (a panicking worker sends nothing)
  let receivers := tasks.map Except.toOption
  -- line 80: the foreground outcome is captured by `catch_unwind`
  let res := fg
  -- lines 81-87: join every worker in submission order, keep the last panic
  let le := lastErr tasks
  -- line 88: `drop(guard)`
  let joined := pre ++ [Ev.runFg] ++ (List.range tasks.length).map Ev.join
      ++ [Ev.guardDrop]
  match le with
  | some e =>
    -- lines 91-93: a worker panicked; re-raise it (drain never runs)
    (joined ++ [Ev.raiseWorker], some (.panicked e))
  | none =>
    -- lines 95-98: drain every channel in submission order
    match drainLoop receivers 0 with
    | (evs, none) => (joined ++ evs, none)
    | (evs, some results) =>
      -- lines 100-104: return, or re-raise the captured foreground panic
      match res with
      | .ok r => (joined ++ evs ++ [Ev.ret], some (.ok results r))
      | .error e => (joined ++ evs ++ [Ev.raiseFg], some (.panicked e))

/-- Functional result of `finish`. -/
def finishRes {T R E : Type} (tasks : List (Except E T)) (fg : Except E R) :
    Option (FinishResult T R E) :=
  (finishExec tasks fg).2

/-- Calling-thread trace of `finish`. -/
def finishTrace {T R E : Type} (tasks : List (Except E T))
    (fg : Except E R) : List Ev :=
  (finishExec tasks fg).1

/-- Method form of `finish` on a builder. -/
def Parallel.finish {T R E : Type} (p : Parallel (Except E T))
    (fg : Except E R) : Option (FinishResult T R E) :=
  finishRes p.closures fg

/-- Result of `run`: the ordered values of all tasks, or a propagated panic. -/
inductive RunResult (T E : Type) where
  | ok : List T → RunResult T E
  | panicked : E → RunResult T E
  deriving DecidableEq, Repr

/-- Model of `Parallel::run` (src/lib.rs lines 41-52), instrumented: pop the
last closure (empty set: return an empty vector at once, nothing spawned),
run `finish` with the popped closure as foreground, append its value. -/
def runExec {T E : Type} (tasks : List (Except E T)) :
    List Ev × Option (RunResult T E) :=
  match tasks.getLast? with
  | none => ([Ev.ret], some (.ok []))
  | some f =>
    match finishExec tasks.dropLast f with
    | (evs, some (.ok results r)) => (evs, some (.ok (results ++ [r])))
    | (evs, some (.panicked e)) => (evs, some (.panicked e))
    | (evs, none) => (evs, none)

/-- Functional result of `run` on a builder. -/
def Parallel.run {T E : Type} (p : Parallel (Except E T)) :
    Option (RunResult T E) :=
  (runExec p.closures).2

/-- Calling-thread trace of `run` on a builder. -/
def Parallel.runTrace {T E : Type} (p : Parallel (Except E T)) : List Ev :=
  (runExec p.closures).1

/-- Model of `NoPanic::drop` (src/lib.rs lines 117-125): the process aborts
iff the guard is dropped while the thread is panicking. -/
def noPanicDropAborts (panicking : Bool) : Bool := panicking

/-- Points of the executor where a second abnormal termination of the calling
thread's own control flow can be injected. -/
inductive InjPoint where
  | duringJoin    -- inside the join loop (lines 83-87), guard still live
  | duringUnwind  -- while unwinding due to a captured failure, before the
                  -- pending failure has propagated out of `finish`
  deriving DecidableEq, Repr

/-- Outcome of `finish` under possible injection: a normal outcome or a
process abort. -/
inductive InjOutcome (T R E : Type) where
  | normal : FinishResult T R E → InjOutcome T R E
  | aborted : InjOutcome T R E
  deriving DecidableEq, Repr

/-- True iff a failure has been captured and is pending re-raise: some worker
panicked (join loop) or the foreground panicked (`catch_unwind`). -/
def hasPendingFailure {T R E : Type} (tasks : List (Except E T))
    (fg : Except E R) : Bool :=
  (lastErr tasks).isSome || isError fg

/-- Model of `finish` with an optional second abnormal termination injected
on the calling thread.  A panic inside the join loop unwinds through the
scope of `guard`, whose drop runs while the thread is panicking and aborts
(src/lib.rs lines 117-125).  A panic raised while the executor is already
unwinding a captured failure is a panic-during-panic, which aborts the
process (runtime double-panic rule); when no failure was captured, no
unwinding takes place, so that injection point is never reached and `finish`
behaves normally. -/
def finishInj {T R E : Type} (tasks : List (Except E T)) (fg : Except E R)
    (inj : Option InjPoint) : Option (InjOutcome T R E) :=
  match inj with
  | none => (finishRes tasks fg).map .normal
  | some .duringJoin =>
    if noPanicDropAborts true then some .aborted
    else (finishRes tasks fg).map .normal
  | some .duringUnwind =>
    if hasPendingFailure tasks fg then some .aborted
    else (finishRes tasks fg).map .normal

end EasyParallel

namespace EasyParallel

/-! Helper lemmas about the model. -/

theorem Parallel.eq_of_closures {σ : Type} {p q : Parallel σ}
    (h : p.closures = q.closures) : p = q := by
  cases p; cases q; simpa using h

theorem lastErr_eq_getLast {E T : Type} (outs : List (Except E T)) :
    lastErr outs = (outs.filterMap errOf).getLast? := by
  induction outs using List.reverseRecOn with
  | nil => rfl
  | append_singleton l o ih =>
    cases o with
    | error e =>
      simp [lastErr, lastErrStep, errOf, List.foldl_append,
        List.getLast?_concat]
    | ok v =>
      simpa [lastErr, lastErrStep, errOf, List.foldl_append] using ih

theorem lastErr_none_iff {E T : Type} (outs : List (Except E T)) :
    lastErr outs = none ↔ ∀ o ∈ outs, errOf o = none := by
  rw [lastErr_eq_getLast]
  simp

theorem isError_iff_errOf {E A : Type} (o : Except E A) :
    isError o = true ↔ errOf o ≠ none := by
  cases o <;> simp [isError, errOf]

theorem lastErr_map_ok {E T : Type} (vals : List T) :
    lastErr (vals.map (Except.ok : T → Except E T)) = none := by
  rw [lastErr_none_iff]
  intro o ho
  obtain ⟨v, _, rfl⟩ := List.mem_map.mp ho
  rfl

theorem map_toOption_of_ok {E T : Type} (tasks : List (Except E T))
    (h : ∀ o ∈ tasks, errOf o = none) :
    tasks.map Except.toOption = (tasks.filterMap Except.toOption).map some ∧
      (tasks.filterMap Except.toOption).length = tasks.length := by
  induction tasks with
  | nil => simp
  | cons o rest ih =>
    cases o with
    | error e =>
      have he := h (Except.error e) (by simp)
      simp [errOf] at he
    | ok v =>
      have h' : ∀ o ∈ rest, errOf o = none := fun o ho => h o (by simp [ho])
      obtain ⟨h1, h2⟩ := ih h'
      simp [Except.toOption, h1, h2]

theorem filterMap_toOption_map_ok {E T : Type} (vals : List T) :
    (vals.map (Except.ok : T → Except E T)).filterMap Except.toOption
      = vals := by
  induction vals with
  | nil => rfl
  | cons v rest ih => simp [List.filterMap_cons, Except.toOption, ih]

theorem filterMap_toOption_comp_ok {E T : Type} (vals : List T) :
    vals.filterMap (Except.toOption ∘ (Except.ok : T → Except E T))
      = vals := by
  induction vals with
  | nil => rfl
  | cons v rest ih =>
    simp [List.filterMap_cons, Except.toOption, Function.comp, ih]

theorem drainLoop_map_some {T : Type} (vals : List T) :
    ∀ i, drainLoop (vals.map some) i
      = ((List.range' i vals.length).map Ev.recv, some vals) := by
  induction vals with
  | nil => intro i; simp [drainLoop]
  | cons v rest ih =>
    intro i
    simp [drainLoop, ih (i + 1), List.range'_succ]

theorem chanSpawnEvents_mem (n : Nat) :
    ∀ e ∈ chanSpawnEvents n, ∃ i, i < n ∧ (e = Ev.chan i ∨ e = Ev.spawn i) := by
  induction n with
  | zero => simp [chanSpawnEvents]
  | succ m ih =>
    intro e he
    simp only [chanSpawnEvents, List.mem_append, List.mem_cons,
      List.mem_singleton] at he
    rcases he with he | he | he
    · obtain ⟨i, hi, h⟩ := ih e he
      exact ⟨i, Nat.lt_succ_of_lt hi, h⟩
    · exact ⟨m, Nat.lt_succ_self m, Or.inl he⟩
    · simp at he
      exact ⟨m, Nat.lt_succ_self m, Or.inr he⟩

theorem drainLoop_fst_mem {T : Type} (cs : List (Option T)) :
    ∀ i e, e ∈ (drainLoop cs i).1 → ∃ j, e = Ev.recv j := by
  induction cs with
  | nil => intro i e h; simp [drainLoop] at h
  | cons c rest ih =>
    intro i e h
    cases c with
    | none =>
      simp [drainLoop] at h
      exact ⟨i, h⟩
    | some v =>
      rcases hdr : drainLoop rest (i + 1) with ⟨evs, r⟩
      simp [drainLoop, hdr] at h
      rcases h with h | h
      · exact ⟨i, h⟩
      · exact ih (i + 1) e (by rw [hdr]; exact h)

theorem foldl_add_closures {σ A : Type} (g : A → σ) (xs : List A) :
    ∀ p : Parallel σ, (xs.foldl (fun q x => q.add (g x)) p).closures
      = p.closures ++ xs.map g := by
  induction xs with
  | nil => intro p; simp
  | cons x rest ih =>
    intro p
    rw [List.foldl_cons, ih]
    simp [Parallel.add]

theorem foldl_push_closures {σ A : Type} (g : A → σ) (xs : List A) :
    ∀ init : List σ, xs.foldl (fun acc t => acc ++ [g t]) init
      = init ++ xs.map g := by
  induction xs with
  | nil => intro init; simp
  | cons x rest ih => intro init; simp [ih]

/-- Execution of `finish` when some worker panicked: the saved `last_err` is
re-raised right after the joins and the guard drop; the drain loop never
runs. -/
theorem finishExec_worker_panic {T R E : Type} (tasks : List (Except E T))
    (fg : Except E R) (e : E) (h : lastErr tasks = some e) :
    finishExec tasks fg
      = (chanSpawnEvents tasks.length ++ [Ev.runFg]
          ++ (List.range tasks.length).map Ev.join
          ++ [Ev.guardDrop, Ev.raiseWorker],
        some (.panicked e)) := by
  simp [finishExec, h]

/-- Execution of `finish` when no worker panicked: every channel holds a
value, the drain succeeds in submission order, and the outcome is decided by
the captured foreground outcome. -/
theorem finishExec_no_panic {T R E : Type} (tasks : List (Except E T))
    (fg : Except E R) (h : lastErr tasks = none) :
    finishExec tasks fg
      = (chanSpawnEvents tasks.length ++ [Ev.runFg]
          ++ (List.range tasks.length).map Ev.join ++ [Ev.guardDrop]
          ++ (List.range' 0 tasks.length).map Ev.recv
          ++ (match fg with | .ok _ => [Ev.ret] | .error _ => [Ev.raiseFg]),
        some (match fg with
          | .ok r => .ok (tasks.filterMap Except.toOption) r
          | .error e => .panicked e)) := by
  obtain ⟨hmap, hlen⟩ := map_toOption_of_ok tasks ((lastErr_none_iff tasks).mp h)
  have hdrain := drainLoop_map_some (tasks.filterMap Except.toOption) 0
  cases fg with
  | ok r => simp [finishExec, h, hmap, hdrain, hlen]
  | error e => simp [finishExec, h, hmap, hdrain, hlen]

end EasyParallel

namespace EasyParallel

theorem runExec_concat {T E : Type} (l : List (Except E T))
    (x : Except E T) :
    runExec (l ++ [x])
      = match finishExec l x with
        | (evs, some (.ok results r)) => (evs, some (.ok (results ++ [r])))
        | (evs, some (.panicked e)) => (evs, some (.panicked e))
        | (evs, none) => (evs, none) := by
  unfold runExec
  simp only [List.getLast?_concat, List.dropLast_concat]

theorem runExec_all_ok {T E : Type} (vals : List T) :
    (runExec (vals.map (Except.ok : T → Except E T))).2
      = some (RunResult.ok vals) := by
  induction vals using List.reverseRecOn with
  | nil => rfl
  | append_singleton l a _ =>
    have hfin := finishExec_no_panic (l.map (Except.ok : T → Except E T))
      (Except.ok a) (lastErr_map_ok l)
    rw [List.map_append, List.map_cons, List.map_nil, runExec_concat, hfin]
    simp [filterMap_toOption_map_ok, filterMap_toOption_comp_ok]

theorem terminal_not_in_setup (n : Nat) :
    ∀ e ∈ chanSpawnEvents n ++ [Ev.runFg] ++ (List.range n).map Ev.join,
      e ≠ Ev.raiseWorker ∧ e ≠ Ev.raiseFg ∧ e ≠ Ev.ret := by
  intro e he
  simp only [List.mem_append, List.mem_singleton, List.mem_map,
    List.mem_range] at he
  rcases he with (he | rfl) | ⟨j, _, rfl⟩
  · obtain ⟨i, _, h | h⟩ := chanSpawnEvents_mem n e he <;> subst h <;> simp
  · simp
  · simp

/-- C1: for every N tasks submitted in order via `add`, if every task
completes normally, `run()` returns a sequence of length N whose i-th element
is the value of the i-th submitted task, in submission order (the
last-submitted task runs as the foreground and its value is appended after
the worker results). -/
theorem run_returns_submission_order {T E : Type} (vals : List T) :
    Parallel.run (vals.foldl (fun p v => p.add (Except.ok v))
        (Parallel.new (Except E T)))
      = some (RunResult.ok vals) := by
  unfold Parallel.run
  rw [show (vals.foldl (fun p v => p.add (Except.ok v))
        (Parallel.new (Except E T))).closures = vals.map Except.ok from by
    simpa [Parallel.new] using
      foldl_add_closures Except.ok vals (Parallel.new (Except E T))]
  exact runExec_all_ok vals

/-- C2: `finish(fg)` on K normally-completing tasks with a normally-completing
foreground returns the pair of the ordered K-length value sequence and the
foreground's value. -/
theorem finish_ordered_pair {T R E : Type} (vals : List T) (r : R) :
    Parallel.finish ⟨vals.map (Except.ok : T → Except E T)⟩ (Except.ok r)
      = some (FinishResult.ok vals r) := by
  unfold Parallel.finish finishRes
  rw [finishExec_no_panic _ _ (lastErr_map_ok vals),
    filterMap_toOption_map_ok]

/-- C3: `run()` on an empty TaskSet returns an empty sequence at once: the
trace is a bare return, with no channel creation, no spawn, and no foreground
invocation. -/
theorem run_empty_no_spawn (T E : Type) :
    Parallel.run (Parallel.new (Except E T)) = some (RunResult.ok [])
    ∧ Parallel.runTrace (Parallel.new (Except E T)) = [Ev.ret]
    ∧ (∀ i, Ev.chan i ∉ Parallel.runTrace (Parallel.new (Except E T))
        ∧ Ev.spawn i ∉ Parallel.runTrace (Parallel.new (Except E T)))
    ∧ Ev.runFg ∉ Parallel.runTrace (Parallel.new (Except E T)) := by
  refine ⟨rfl, rfl, ?_, by simp [Parallel.runTrace, Parallel.new, runExec]⟩
  intro i
  constructor <;> simp [Parallel.runTrace, Parallel.new, runExec]

/-- C4: `each(sequence, mapper)` builds the same TaskSet as one `add` per
element in the sequence's order, the task for element x being the invocation
of (a clone of) the mapper at x; the closure type is an opaque parameter, so
builder operations cannot run any accumulated computation. -/
theorem each_eq_repeated_add {σ A : Type} (p : Parallel σ) (xs : List A)
    (f : A → σ) :
    p.each xs f = xs.foldl (fun q x => q.add (f x)) p
    ∧ (p.each xs f).closures = p.closures ++ xs.map f := by
  have hcl : (p.each xs f).closures = p.closures ++ xs.map f := by
    unfold Parallel.each
    exact foldl_push_closures f xs p.closures
  exact ⟨Parallel.eq_of_closures (by rw [hcl, foldl_add_closures]), hcl⟩

/-- C5: if a worker task panics, `finish` re-raises a worker panic and the
foreground outcome is discarded whatever it is; with several failing workers,
the surfaced payload is exactly that of the failing worker of highest
submission index (the last failing entry in submission order). -/
theorem finish_surfaces_last_worker_panic {T R E : Type}
    (tasks : List (Except E T)) (e : E)
    (h : (tasks.filterMap errOf).getLast? = some e) (fg : Except E R) :
    Parallel.finish ⟨tasks⟩ fg = some (FinishResult.panicked e) := by
  unfold Parallel.finish finishRes
  rw [finishExec_worker_panic tasks fg e (by rw [lastErr_eq_getLast]; exact h)]

theorem finish_surfaces_last_worker_panic_witness :
    Parallel.finish
        (⟨[Except.ok 1, Except.error 10, Except.error 20]⟩ :
          Parallel (Except Nat Nat))
        (Except.error 99 : Except Nat Nat)
      = some (FinishResult.panicked 20) :=
  finish_surfaces_last_worker_panic _ 20 (by decide) (Except.error 99)

/-- C6: when no worker panics but the foreground does, `finish` re-raises the
foreground's captured panic, and only after every channel has been drained;
moreover `finish` propagates a (single) failure iff some worker or the
foreground panicked. -/
theorem finish_fg_panic_after_drain {T R E : Type} (tasks : List (Except E T))
    (fg : Except E R) :
    (∀ e, lastErr tasks = none → fg = Except.error e →
        finishRes tasks fg = some (FinishResult.panicked e)
        ∧ finishTrace tasks fg
          = chanSpawnEvents tasks.length ++ [Ev.runFg]
              ++ (List.range tasks.length).map Ev.join ++ [Ev.guardDrop]
              ++ (List.range' 0 tasks.length).map Ev.recv ++ [Ev.raiseFg])
    ∧ ((∃ e, finishRes tasks fg = some (FinishResult.panicked e))
        ↔ (∃ t ∈ tasks, isError t = true) ∨ isError fg = true) := by
  constructor
  · rintro e hle rfl
    have hfin := finishExec_no_panic tasks (Except.error e : Except E R) hle
    unfold finishRes finishTrace
    rw [hfin]
    simp
  · constructor
    · rintro ⟨e, he⟩
      cases hle : lastErr tasks with
      | none =>
        unfold finishRes at he
        rw [finishExec_no_panic tasks fg hle] at he
        cases fg with
        | ok r => simp at he
        | error e'' => right; rfl
      | some e' =>
        left
        have hnall : ¬ ∀ o ∈ tasks, errOf o = none := by
          intro hall
          rw [(lastErr_none_iff tasks).mpr hall] at hle
          cases hle
        push_neg at hnall
        obtain ⟨t, ht, hterr⟩ := hnall
        exact ⟨t, ht, (isError_iff_errOf t).mpr hterr⟩
    · rintro (⟨t, ht, hterr⟩ | hfg)
      · have hne : lastErr tasks ≠ none := fun hnone =>
          (isError_iff_errOf t).mp hterr
            (((lastErr_none_iff tasks).mp hnone) t ht)
        obtain ⟨e', he'⟩ := Option.ne_none_iff_exists'.mp hne
        refine ⟨e', ?_⟩
        unfold finishRes
        rw [finishExec_worker_panic tasks fg e' he']
      · cases hle : lastErr tasks with
        | none =>
          cases fg with
          | ok r => simp [isError] at hfg
          | error e'' =>
            refine ⟨e'', ?_⟩
            unfold finishRes
            rw [finishExec_no_panic tasks _ hle]
        | some e' =>
          refine ⟨e', ?_⟩
          unfold finishRes
          rw [finishExec_worker_panic tasks fg e' hle]

theorem finish_fg_panic_after_drain_witness :
    finishRes [Except.ok (1 : Nat)] (Except.error 99 : Except Nat Nat)
      = some (FinishResult.panicked 99) :=
  ((finish_fg_panic_after_drain [Except.ok (1 : Nat)]
      (Except.error 99 : Except Nat Nat)).1 99 (by decide) rfl).1

/-- C7: in every execution of `finish`, every spawned worker is joined, in
submission order, before any failure is re-raised and before any result is
returned: the trace decomposes as the spawns, the foreground, all joins in
submission order, then a tail holding no spawn or join; re-raise and return
events never occur in the part up to the joins. -/
theorem joins_precede_raise_and_return {T R E : Type}
    (tasks : List (Except E T)) (fg : Except E R) :
    ∃ tail,
      finishTrace tasks fg
        = chanSpawnEvents tasks.length ++ [Ev.runFg]
            ++ (List.range tasks.length).map Ev.join ++ tail
      ∧ (∀ i, Ev.chan i ∉ tail ∧ Ev.spawn i ∉ tail ∧ Ev.join i ∉ tail)
      ∧ (∀ e ∈ chanSpawnEvents tasks.length ++ [Ev.runFg]
            ++ (List.range tasks.length).map Ev.join,
          e ≠ Ev.raiseWorker ∧ e ≠ Ev.raiseFg ∧ e ≠ Ev.ret) := by
  cases hle : lastErr tasks with
  | some e =>
    refine ⟨[Ev.guardDrop, Ev.raiseWorker], ?_, ?_, terminal_not_in_setup _⟩
    · unfold finishTrace
      rw [finishExec_worker_panic tasks fg e hle]
    · intro i
      refine ⟨?_, ?_, ?_⟩ <;> simp
  | none =>
    cases fg with
    | ok r =>
      refine ⟨[Ev.guardDrop] ++ (List.range' 0 tasks.length).map Ev.recv
          ++ [Ev.ret], ?_, ?_, terminal_not_in_setup _⟩
      · unfold finishTrace
        rw [finishExec_no_panic tasks _ hle]
        simp
      · intro i
        refine ⟨?_, ?_, ?_⟩ <;>
          · intro h
            simp [List.mem_append] at h
    | error e =>
      refine ⟨[Ev.guardDrop] ++ (List.range' 0 tasks.length).map Ev.recv
          ++ [Ev.raiseFg], ?_, ?_, terminal_not_in_setup _⟩
      · unfold finishTrace
        rw [finishExec_no_panic tasks _ hle]
        simp
      · intro i
        refine ⟨?_, ?_, ?_⟩ <;>
          · intro h
            simp [List.mem_append] at h

/-- C8: a second abnormal termination of the calling thread's own control
flow during the join phase, or while the executor is unwinding a captured
pending failure, makes the process abort at once instead of unwinding
further. -/
theorem second_panic_aborts {T R E : Type} (tasks : List (Except E T))
    (fg : Except E R) :
    finishInj tasks fg (some InjPoint.duringJoin) = some InjOutcome.aborted
    ∧ (hasPendingFailure tasks fg = true →
        finishInj tasks fg (some InjPoint.duringUnwind)
          = some InjOutcome.aborted) := by
  refine ⟨rfl, fun h => ?_⟩
  simp [finishInj, h]

theorem second_panic_aborts_witness :
    finishInj ([Except.error 5] : List (Except Nat Nat))
        (Except.ok 2 : Except Nat Nat) (some InjPoint.duringUnwind)
      = some InjOutcome.aborted :=
  (second_panic_aborts ([Except.error 5] : List (Except Nat Nat))
      (Except.ok 2 : Except Nat Nat)).2 (by decide)

/-- C9: the drain loop runs only when no worker panicked (a worker panic
leaves no receive event in the trace), and under that precondition every
channel holds a value, so the drain's receive-and-unwrap always succeeds. -/
theorem drain_reached_only_on_success {T R E : Type}
    (tasks : List (Except E T)) (fg : Except E R) :
    (lastErr tasks = none →
        (drainLoop (tasks.map Except.toOption) 0).2
          = some (tasks.filterMap Except.toOption)
        ∧ (tasks.filterMap Except.toOption).length = tasks.length
        ∧ finishRes tasks fg ≠ none)
    ∧ (lastErr tasks ≠ none → ∀ i, Ev.recv i ∉ finishTrace tasks fg) := by
  constructor
  · intro hle
    obtain ⟨hmap, hlen⟩ :=
      map_toOption_of_ok tasks ((lastErr_none_iff tasks).mp hle)
    refine ⟨?_, hlen, ?_⟩
    · rw [hmap, drainLoop_map_some]
    · unfold finishRes
      rw [finishExec_no_panic tasks fg hle]
      cases fg <;> simp
  · intro hne i
    obtain ⟨e, he⟩ := Option.ne_none_iff_exists'.mp hne
    unfold finishTrace
    rw [finishExec_worker_panic tasks fg e he]
    intro hmem
    simp only [List.mem_append, List.mem_singleton, List.mem_cons,
      List.mem_map, List.mem_range] at hmem
    rcases hmem with ((hm | hm) | ⟨j, _, hm⟩) | hm | hm
    · obtain ⟨k, _, h | h⟩ := chanSpawnEvents_mem _ _ hm <;> simp at h
    · simp at hm
    · simp at hm
    · simp at hm
    · simp at hm

theorem drain_reached_only_on_success_witness :
    (drainLoop (([Except.ok 1, Except.ok 2] :
        List (Except Nat Nat)).map Except.toOption) 0).2
      = some [1, 2] := by
  simpa using
    ((drain_reached_only_on_success
        ([Except.ok 1, Except.ok 2] : List (Except Nat Nat))
        (Except.ok 0 : Except Nat Nat)).1 (by decide)).1

/-- C10: the Debug formatting renders a struct named Parallel with a single
field len equal to the number of accumulated tasks; it depends only on that
number (in particular it is the same for closure lists of entirely different
types, so it invokes no accumulated computation). -/
theorem fmtDebug_depends_only_on_len {σ τ : Type} (p : Parallel σ)
    (q : Parallel τ) (n : Nat) (hp : p.closures.length = n)
    (hq : q.closures.length = n) :
    p.fmtDebug = "Parallel \x7b len: " ++ toString n ++ " \x7d"
    ∧ p.fmtDebug = q.fmtDebug := by
  unfold Parallel.fmtDebug
  rw [hp, hq]
  exact ⟨rfl, rfl⟩

theorem fmtDebug_depends_only_on_len_witness :
    Parallel.fmtDebug (⟨[0, 1, 2]⟩ : Parallel Nat)
      = "Parallel \x7b len: " ++ toString 3 ++ " \x7d"
    ∧ Parallel.fmtDebug (⟨[0, 1, 2]⟩ : Parallel Nat)
      = Parallel.fmtDebug (⟨[true, false, true]⟩ : Parallel Bool) :=
  fmtDebug_depends_only_on_len _ _ 3 rfl rfl

end EasyParallel
